import Mathlib

/-!
Verification of the Query-IR authorization / error-propagation / code-generation core.

The definitions below are a shallow embedding of:
  * `src/authorization/move-errors-to-output-nodes.ts` (error-propagation pass),
  * `src/authorization/transformers/follow-edge.ts` and the create-entity transformer
    (authorization rewriting),
  * `src/database/inmemory/js-generator.ts` (the in-memory code-generation backend),
interpreted over a `Value` type standing for the JSON-like runtime values of the
generated JavaScript.  Where the generator emits JS code, we embed the *semantics*
of the emitted code (e.g. `Array.prototype.filter/sort/slice/map` chains) rather
than the concrete strings, except where a claim is about the emitted text itself.
-/

/-- Runtime values of the in-memory backend: the JSON-like values the generated
JavaScript operates on (`null`, booleans, numbers, strings, arrays, plain objects). -/
inductive Value where
  | null
  | boolV (b : Bool)
  | intV (n : Int)
  | strV (s : String)
  | listV (items : List Value)
  | objV (props : List (String × Value))

mutual

/-- Canonical serialization of a `Value`, used to define the total-order comparator.
The encoding is length-prefixed for strings and bracketed for containers, so distinct
values get distinct encodings. -/
def encV : Value → String
  | .null => "n"
  | .boolV b => if b then "t" else "f"
  | .intV n => "i" ++ toString n ++ ";"
  | .strV s => "s" ++ toString s.length ++ ":" ++ s
  | .listV xs => "[" ++ encVList xs ++ "]"
  | .objV ps => "(" ++ encVProps ps ++ ")"

def encVList : List Value → String
  | [] => ""
  | x :: xs => encV x ++ "," ++ encVList xs

def encVProps : List (String × Value) → String
  | [] => ""
  | (n, v) :: ps => toString n.length ++ ":" ++ n ++ "=" ++ encV v ++ "," ++ encVProps ps

end

/-- Modelled from the spec: the in-memory runtime's `support.compare` (the support
module is not under `src/`), described as "a total-order comparator that handles
cross-type comparison consistently".  We realize it as the lexicographic order on the
canonical serializations; the only property the development relies on is that it
returns `.eq` exactly on equal serializations. -/
def totalCompare (a b : Value) : Ordering :=
  if encV a = encV b then .eq
  else if encV a < encV b then .lt
  else .gt

theorem totalCompare_eq_iff (a b : Value) : totalCompare a b = .eq ↔ encV a = encV b := by
  unfold totalCompare
  by_cases h : encV a = encV b
  · simp [h]
  · by_cases h2 : encV a < encV b <;> simp [h, h2]

/-- One compiled ordering clause: a key extractor together with the descending flag,
mirroring `getClauseFnAndInvert` in the js-generator (which compiles each
`OrderClause` to a `[valueLambda, invertFlag]` pair). -/
def SortClause : Type := (Value → Value) × Bool

/-- Comparison by a single clause: compare the extracted keys with the total-order
comparator and invert the outcome for a descending clause. -/
def clauseCompare (c : SortClause) (a b : Value) : Ordering :=
  let o := totalCompare (c.1 a) (c.1 b)
  if c.2 then o.swap else o

/-- Modelled from the spec: the runtime's `support.getMultiComparator` (not under
`src/`), described as composing the clause comparators "left-to-right as
primary/secondary/… keys": the first clause that distinguishes decides. -/
def multiCompare : List SortClause → Value → Value → Ordering
  | [], _, _ => .eq
  | c :: rest, a, b =>
    match clauseCompare c a b with
    | .eq => multiCompare rest a b
    | o => o

theorem ordering_swap_eq_iff (o : Ordering) : o.swap = .eq ↔ o = .eq := by
  cases o <;> simp [Ordering.swap]

theorem clauseCompare_eq_iff (c : SortClause) (a b : Value) :
    clauseCompare c a b = .eq ↔ encV (c.1 a) = encV (c.1 b) := by
  unfold clauseCompare
  by_cases hd : c.2
  · simp only [hd, if_true]
    rw [ordering_swap_eq_iff]
    exact totalCompare_eq_iff _ _
  · simp only [hd, if_false]
    exact totalCompare_eq_iff _ _

theorem multiCompare_eq_iff (cs : List SortClause) (a b : Value) :
    multiCompare cs a b = .eq ↔
      cs.map (fun c => encV (c.1 a)) = cs.map (fun c => encV (c.1 b)) := by
  induction cs with
  | nil => simp [multiCompare]
  | cons c rest ih =>
    simp only [multiCompare, List.map_cons, List.cons.injEq]
    rcases ho : clauseCompare c a b with _ | _ | _
    · have : ¬ (encV (c.1 a) = encV (c.1 b)) := by
        intro he
        rw [← clauseCompare_eq_iff c a b] at he
        rw [ho] at he
        exact absurd he (by simp)
      simp [this]
    · have he : encV (c.1 a) = encV (c.1 b) := (clauseCompare_eq_iff c a b).mp ho
      simp [he, ih]
    · have : ¬ (encV (c.1 a) = encV (c.1 b)) := by
        intro he
        rw [← clauseCompare_eq_iff c a b] at he
        rw [ho] at he
        exact absurd he (by simp)
      simp [this]

/-- Insert into a sorted list, placing the new element before the first element it
does not strictly exceed: this is the insertion step of a stable sort and matches the
(ES2019-mandated stable) `Array.prototype.sort` semantics for a consistent comparator. -/
def insertCmp (cmp : Value → Value → Ordering) (a : Value) : List Value → List Value
  | [] => [a]
  | b :: bs => if cmp a b = .gt then b :: insertCmp cmp a bs else a :: b :: bs

/-- Stable sort by a comparator (insertion sort), modelling `.slice().sort(comparator)`
in the generated code. -/
def sortByCmp (cmp : Value → Value → Ordering) : List Value → List Value
  | [] => []
  | x :: xs => insertCmp cmp x (sortByCmp cmp xs)

theorem insertCmp_split (cmp : Value → Value → Ordering) (a : Value) (l : List Value) :
    ∃ l₁ l₂, l = l₁ ++ l₂ ∧ insertCmp cmp a l = l₁ ++ a :: l₂ ∧
      ∀ y ∈ l₁, cmp a y = .gt := by
  induction l with
  | nil => exact ⟨[], [], rfl, rfl, by simp⟩
  | cons b bs ih =>
    by_cases h : cmp a b = .gt
    · obtain ⟨l₁, l₂, he, hi, hg⟩ := ih
      refine ⟨b :: l₁, l₂, by simp [he], ?_, ?_⟩
      · simp [insertCmp, h, hi]
      · intro y hy
        rcases List.mem_cons.mp hy with hy | hy
        · exact hy ▸ h
        · exact hg y hy
    · exact ⟨[], b :: bs, rfl, by simp [insertCmp, h], by simp⟩

/-- Boolean test for an `.eq` comparator outcome (a tie). -/
def ordEqB : Ordering → Bool
  | .eq => true
  | _ => false

theorem ordEqB_true_iff (o : Ordering) : ordEqB o = true ↔ o = .eq := by
  cases o <;> simp [ordEqB]

theorem sortByCmp_stable_filter {κ : Type} (cmp : Value → Value → Ordering)
    (keyF : Value → κ) (hkey : ∀ a b, cmp a b = .eq ↔ keyF a = keyF b)
    (x : Value) (l : List Value) :
    (sortByCmp cmp l).filter (fun y => ordEqB (cmp y x)) =
      l.filter (fun y => ordEqB (cmp y x)) := by
  induction l with
  | nil => rfl
  | cons a l ih =>
    show (insertCmp cmp a (sortByCmp cmp l)).filter (fun y => ordEqB (cmp y x)) = _
    obtain ⟨l₁, l₂, he, hi, hg⟩ := insertCmp_split cmp a (sortByCmp cmp l)
    have hsplit : (sortByCmp cmp l).filter (fun y => ordEqB (cmp y x)) =
        l₁.filter (fun y => ordEqB (cmp y x)) ++ l₂.filter (fun y => ordEqB (cmp y x)) := by
      rw [he, List.filter_append]
    by_cases hq : cmp a x = .eq
    · have hfl₁ : l₁.filter (fun y => ordEqB (cmp y x)) = [] := by
        rw [List.filter_eq_nil_iff]
        intro y hy
        simp only [ordEqB_true_iff]
        intro hc
        have h1 : keyF a = keyF x := (hkey a x).mp hq
        have h2 : keyF y = keyF x := (hkey y x).mp hc
        have h3 : cmp a y = .eq := (hkey a y).mpr (h1.trans h2.symm)
        rw [hg y hy] at h3
        exact Ordering.noConfusion h3
      have hqa : ordEqB (cmp a x) = true := (ordEqB_true_iff _).mpr hq
      rw [hi, List.filter_append, hfl₁, List.nil_append, List.filter_cons, hqa]
      rw [List.filter_cons, hqa]
      simp only [if_true]
      rw [hsplit, hfl₁, List.nil_append] at ih
      rw [ih]
    · have hqa : ordEqB (cmp a x) = false := by
        cases hcc : cmp a x <;> simp_all [ordEqB]
      rw [hi, List.filter_append, List.filter_cons, hqa]
      simp only [Bool.false_eq_true, if_false]
      rw [← List.filter_append, ← he, ih, List.filter_cons, hqa]
      simp

mutual

/-- The Query IR (`QueryNode` in `query/definition`), restricted to the node kinds the
claims exercise.  `PropList` stands for the list of `PropertySpecification`s of an
`ObjectQueryNode`; `NodeList` for the item list of a `ListQueryNode`; `OrderClauses`
for an `OrderSpecification`; `StepList` for the list of `PreExecQueryParms` of a
`WithPreExecutionQueryNode` (query, optional result-variable label, optional
`ErrorIfNotTruthyResultValidator` message).  Field order of each constructor follows
the order the fields are visited in. -/
inductive QNode where
  | constBool (value : Bool)
  | constInt (value : Int)
  | nullQ
  | literalQ (value : Value)
  | variableQ (label : String)
  | runtimeError (message : String)
  | variableAssignment (label : String) (variableValueNode : QNode) (resultNode : QNode)
  | objectQ (properties : PropList)
  | listQ (itemNodes : NodeList)
  | conditional (condition : QNode) (expr1 : QNode) (expr2 : QNode)
  | transformList (listNode : QNode) (itemVariable : String) (filterNode : QNode)
      (orderBy : OrderClauses) (maxCount : Option Nat) (innerNode : QNode)
  | fieldQ (objectNode : QNode) (fieldName : String)
  | followEdge (sourceEntityNode : QNode) (sourceTypeName : String)
      (sourceFieldName : Option String) (targetTypeName : String)
  | createEntity (typeName : String) (objectNode : QNode)
  | withPreExecution (resultNode : QNode) (preExecQueries : StepList)

inductive PropList where
  | nil
  | cons (propertyName : String) (valueNode : QNode) (rest : PropList)

inductive NodeList where
  | nil
  | cons (head : QNode) (rest : NodeList)

inductive OrderClauses where
  | nil
  | cons (valueNode : QNode) (descending : Bool) (rest : OrderClauses)

inductive StepList where
  | nil
  | cons (query : QNode) (resultVariable : Option String)
      (validatorMessage : Option String) (rest : StepList)

end

mutual

/-- All `RuntimeError` messages of a subtree, in depth-first visit order.  The
`orderBy` subtrees are excluded: an `OrderSpecification` is not a `QueryNode`, so
`visitObject`'s enter handler skips it (`VisitAction.SKIP_NODE`). -/
def collectAll : QNode → List String
  | .runtimeError m => [m]
  | .variableAssignment _ v r => collectAll v ++ collectAll r
  | .objectQ props => collectProps props
  | .listQ items => collectItems items
  | .conditional c e1 e2 => collectAll c ++ collectAll e1 ++ collectAll e2
  | .transformList l _ f _ _ inner => collectAll l ++ collectAll f ++ collectAll inner
  | .fieldQ obj _ => collectAll obj
  | .followEdge src _ _ _ => collectAll src
  | .createEntity _ obj => collectAll obj
  | .withPreExecution r steps => collectAll r ++ collectSteps steps
  | _ => []

def collectProps : PropList → List String
  | .nil => []
  | .cons _ v rest => collectAll v ++ collectProps rest

def collectItems : NodeList → List String
  | .nil => []
  | .cons h rest => collectAll h ++ collectItems rest

def collectSteps : StepList → List String
  | .nil => []
  | .cons q _ _ rest => collectAll q ++ collectSteps rest

end

/-- The substitution built by the leave handler of `moveErrorsToOutputNodes`: a single
collected error is substituted directly (`return errors[0]`, no re-wrapping); several
are collapsed into one `RuntimeError` whose message joins their messages with a comma
(`errors.map(err => err.message).join(', ')`). -/
def joinErrorNode (msgs : List String) : QNode :=
  match msgs with
  | [m] => .runtimeError m
  | ms => .runtimeError (String.intercalate ", " ms)

/-- The leave handler of `moveErrorsToOutputNodes`: if the node's frame is an output
position and the error list is non-empty, replace the node by the collapsed error and
clear the list; otherwise keep the node and the list. -/
def leaveStep (isOut : Bool) (n : QNode) (errs : List String) : QNode × List String :=
  if isOut && !errs.isEmpty then (joinErrorNode errs, []) else (n, errs)

mutual

/-- Depth-first traversal of `moveErrorsToOutputNodes` (the `visitObject` walk with
its enter/leave handlers), threading the mutable `errorList` explicitly.  `isOut` is
the `isOutputNode` flag of the node's stack frame; a child's flag is
`parent.isOutputNode && outputNodes.isOutputNode(parentClass, key)`, with the
registered output slots being `VariableAssignment.resultNode`, `Object.properties`,
`PropertySpecification.valueNode`, `List.itemNodes`, `Conditional.expr1/expr2` and
`TransformList.innerNode`.  Entering a `RuntimeError` pushes its message; the
`orderBy` subtrees are skipped (not `QueryNode`s). -/
def moveAux : QNode → Bool → List String → QNode × List String
  | .runtimeError m, out, errs => leaveStep out (.runtimeError m) (errs ++ [m])
  | .constBool b, out, errs => leaveStep out (.constBool b) errs
  | .constInt i, out, errs => leaveStep out (.constInt i) errs
  | .nullQ, out, errs => leaveStep out .nullQ errs
  | .literalQ v, out, errs => leaveStep out (.literalQ v) errs
  | .variableQ l, out, errs => leaveStep out (.variableQ l) errs
  | .variableAssignment l v r, out, errs =>
    let pv := moveAux v false errs
    let pr := moveAux r out pv.2
    leaveStep out (.variableAssignment l pv.1 pr.1) pr.2
  | .objectQ props, out, errs =>
    let pp := moveProps props out errs
    leaveStep out (.objectQ pp.1) pp.2
  | .listQ items, out, errs =>
    let pi := moveItems items out errs
    leaveStep out (.listQ pi.1) pi.2
  | .conditional c e1 e2, out, errs =>
    let pc := moveAux c false errs
    let p1 := moveAux e1 out pc.2
    let p2 := moveAux e2 out p1.2
    leaveStep out (.conditional pc.1 p1.1 p2.1) p2.2
  | .transformList l iv f ob mc inner, out, errs =>
    let pl := moveAux l false errs
    let pf := moveAux f false pl.2
    let pn := moveAux inner out pf.2
    leaveStep out (.transformList pl.1 iv pf.1 ob mc pn.1) pn.2
  | .fieldQ obj name, out, errs =>
    let po := moveAux obj false errs
    leaveStep out (.fieldQ po.1 name) po.2
  | .followEdge src st sf tt, out, errs =>
    let ps := moveAux src false errs
    leaveStep out (.followEdge ps.1 st sf tt) ps.2
  | .createEntity t obj, out, errs =>
    let po := moveAux obj false errs
    leaveStep out (.createEntity t po.1) po.2
  | .withPreExecution r steps, out, errs =>
    let pr := moveAux r false errs
    let ps := moveSteps steps pr.2
    leaveStep out (.withPreExecution pr.1 ps.1) ps.2

/-- Property values sit behind two output slots (`Object.properties`, then
`PropertySpecification.valueNode`), so each value node inherits the object's flag;
the intermediate `PropertySpecification` frame never substitutes (after an
output-position value node the error list is empty, and at a non-output position the
leave handler does nothing). -/
def moveProps : PropList → Bool → List String → PropList × List String
  | .nil, _, errs => (.nil, errs)
  | .cons n v rest, out, errs =>
    let pv := moveAux v out errs
    let pr := moveProps rest out pv.2
    (.cons n pv.1 pr.1, pr.2)

def moveItems : NodeList → Bool → List String → NodeList × List String
  | .nil, _, errs => (.nil, errs)
  | .cons h rest, out, errs =>
    let ph := moveAux h out errs
    let pr := moveItems rest out ph.2
    (.cons ph.1 pr.1, pr.2)

def moveSteps : StepList → List String → StepList × List String
  | .nil, errs => (.nil, errs)
  | .cons q rv vm rest, errs =>
    let pq := moveAux q false errs
    let pr := moveSteps rest pq.2
    (.cons pq.1 rv vm pr.1, pr.2)

end

/-- The error-propagation pass `moveErrorsToOutputNodes`: the root frame is always an
output position and the error list starts empty. -/
def moveErrorsToOutputNodes (queryTree : QNode) : QNode :=
  (moveAux queryTree true []).1

/-- The messages held by the error list when the leave handler runs on a node
processed at an output position with `pending` errors already collected: the node's
own message (pushed on enter) and the errors of its non-output child subtrees — but
any output-slot child clears the list when it is left, so kinds whose final child
slot is an output slot always reach their own leave with an empty list. -/
def leaveList (n : QNode) (pending : List String) : List String :=
  match n with
  | .runtimeError m => pending ++ [m]
  | .variableAssignment _ _ _ => []
  | .objectQ .nil => pending
  | .objectQ (.cons _ _ _) => []
  | .listQ .nil => pending
  | .listQ (.cons _ _) => []
  | .conditional _ _ _ => []
  | .transformList _ _ _ _ _ _ => []
  | .fieldQ obj _ => pending ++ collectAll obj
  | .followEdge src _ _ _ => pending ++ collectAll src
  | .createEntity _ obj => pending ++ collectAll obj
  | .withPreExecution r steps => pending ++ collectAll r ++ collectSteps steps
  | _ => pending

theorem leaveStep_false (n : QNode) (errs : List String) : leaveStep false n errs = (n, errs) :=
  rfl

theorem leaveStep_true_of_ne_nil (n : QNode) (errs : List String) (h : errs ≠ []) :
    leaveStep true n errs = (joinErrorNode errs, []) := by
  unfold leaveStep
  cases errs with
  | nil => exact absurd rfl h
  | cons a l => rfl

mutual

theorem moveAux_nonOutput : ∀ (n : QNode) (errs : List String),
    moveAux n false errs = (n, errs ++ collectAll n) := by
  intro n errs
  cases n with
  | runtimeError m => simp [moveAux, collectAll, leaveStep]
  | constBool b => simp [moveAux, collectAll, leaveStep]
  | constInt i => simp [moveAux, collectAll, leaveStep]
  | nullQ => simp [moveAux, collectAll, leaveStep]
  | literalQ v => simp [moveAux, collectAll, leaveStep]
  | variableQ l => simp [moveAux, collectAll, leaveStep]
  | variableAssignment l v r =>
    have hv := moveAux_nonOutput v errs
    have hr := moveAux_nonOutput r (errs ++ collectAll v)
    simp [moveAux, collectAll, leaveStep, hv, hr]
  | objectQ props =>
    have hp := moveProps_nonOutput props errs
    simp [moveAux, collectAll, leaveStep, hp]
  | listQ items =>
    have hi := moveItems_nonOutput items errs
    simp [moveAux, collectAll, leaveStep, hi]
  | conditional c e1 e2 =>
    have hc := moveAux_nonOutput c errs
    have h1 := moveAux_nonOutput e1 (errs ++ collectAll c)
    have h2 := moveAux_nonOutput e2 (errs ++ (collectAll c ++ collectAll e1))
    simp [moveAux, collectAll, leaveStep, hc, h1, h2]
  | transformList l iv f ob mc inner =>
    have hl := moveAux_nonOutput l errs
    have hf := moveAux_nonOutput f (errs ++ collectAll l)
    have hn := moveAux_nonOutput inner (errs ++ (collectAll l ++ collectAll f))
    simp [moveAux, collectAll, leaveStep, hl, hf, hn]
  | fieldQ obj name =>
    have ho := moveAux_nonOutput obj errs
    simp [moveAux, collectAll, leaveStep, ho]
  | followEdge src st sf tt =>
    have hs := moveAux_nonOutput src errs
    simp [moveAux, collectAll, leaveStep, hs]
  | createEntity t obj =>
    have ho := moveAux_nonOutput obj errs
    simp [moveAux, collectAll, leaveStep, ho]
  | withPreExecution r steps =>
    have hr := moveAux_nonOutput r errs
    have hs := moveSteps_collect steps (errs ++ collectAll r)
    simp [moveAux, collectAll, leaveStep, hr, hs]

theorem moveProps_nonOutput : ∀ (ps : PropList) (errs : List String),
    moveProps ps false errs = (ps, errs ++ collectProps ps) := by
  intro ps errs
  cases ps with
  | nil => simp [moveProps, collectProps]
  | cons n v rest =>
    have hv := moveAux_nonOutput v errs
    have hr := moveProps_nonOutput rest (errs ++ collectAll v)
    simp [moveProps, collectProps, hv, hr]

theorem moveItems_nonOutput : ∀ (its : NodeList) (errs : List String),
    moveItems its false errs = (its, errs ++ collectItems its) := by
  intro its errs
  cases its with
  | nil => simp [moveItems, collectItems]
  | cons h rest =>
    have hh := moveAux_nonOutput h errs
    have hr := moveItems_nonOutput rest (errs ++ collectAll h)
    simp [moveItems, collectItems, hh, hr]

theorem moveSteps_collect : ∀ (ss : StepList) (errs : List String),
    moveSteps ss errs = (ss, errs ++ collectSteps ss) := by
  intro ss errs
  cases ss with
  | nil => simp [moveSteps, collectSteps]
  | cons q rv vm rest =>
    have hq := moveAux_nonOutput q errs
    have hr := moveSteps_collect rest (errs ++ collectAll q)
    simp [moveSteps, collectSteps, hq, hr]

end

/-- A tree whose only `RuntimeError` sits in the filter predicate of a `TransformList`
(a non-output child slot); the `innerNode` is the default identity mapping on the
item variable. -/
def filterErrorTree : QNode :=
  .transformList (.listQ .nil) "item" (.runtimeError "e") .nil none (.variableQ "item")

/-- C1, counterexample: on a tree whose only `RuntimeError` is reachable solely
through the non-output `filterNode` slot of a `TransformList`, the error-propagation
pass does NOT leave every output-position node unchanged: the error collected while
visiting the filter is still pending when the `innerNode` (an output-position node,
since the root is an output position and `innerNode` is `TransformList`'s output
slot) is left, so the `innerNode` is replaced by the `RuntimeError`.  The conjuncts
record that the pass rewrites the tree, that the replaced output-position `innerNode`
really changed, and that both output-slot subtrees (`listNode` feeds only `innerNode`;
`innerNode` itself) contained no error before the pass. -/
theorem moveErrors_filter_error_corrupts_output :
    moveErrorsToOutputNodes filterErrorTree =
      .transformList (.listQ .nil) "item" (.runtimeError "e") .nil none (.runtimeError "e")
    ∧ QNode.variableQ "item" ≠ QNode.runtimeError "e"
    ∧ collectAll (.listQ .nil) = []
    ∧ collectAll (.variableQ "item") = [] :=
  ⟨rfl, fun h => QNode.noConfusion h, rfl, rfl⟩

/-- C1, amended: leaving a node processed at a non-output position never substitutes
anything — the whole subtree is returned unchanged while its `RuntimeError` messages
are appended to the running error list; those collected messages survive to the next
node whose leave handler runs at an output position and replace that node (so an
error reachable only through a filter predicate does corrupt an output-position
value, e.g. the `innerNode` of `filterErrorTree`). -/
theorem moveErrors_nonOutput_amended :
    (∀ (n : QNode) (errs : List String), moveAux n false errs = (n, errs ++ collectAll n))
    ∧ moveErrorsToOutputNodes filterErrorTree =
        .transformList (.listQ .nil) "item" (.runtimeError "e") .nil none (.runtimeError "e") :=
  ⟨moveAux_nonOutput, rfl⟩

/-- C2: whenever the leave handler runs at an output position with a non-empty
collected error list (`leaveList` is exactly that list: the pending errors plus the
messages observed, in depth-first order, within the node's boundary), the node is
replaced by exactly one `RuntimeError`; `joinErrorNode` substitutes a single
collected error directly and otherwise joins the messages with a comma and a space,
in first-encountered order.  The second conjunct specializes to the whole pass. -/
theorem moveErrors_collapses_to_single_error :
    ∀ (n : QNode) (pending : List String),
      (leaveList n pending ≠ [] → (moveAux n true pending).1 = joinErrorNode (leaveList n pending))
      ∧ (leaveList n [] ≠ [] → moveErrorsToOutputNodes n = joinErrorNode (leaveList n [])) := by
  have step_fst : ∀ (n : QNode) (errs : List String), errs ≠ [] →
      (leaveStep true n errs).1 = joinErrorNode errs := by
    intro n errs h
    rw [leaveStep_true_of_ne_nil _ _ h]
  have main : ∀ (n : QNode) (pending : List String), leaveList n pending ≠ [] →
      (moveAux n true pending).1 = joinErrorNode (leaveList n pending) := by
    intro n pending h
    cases n with
    | runtimeError m =>
      simp only [leaveList] at h ⊢
      exact step_fst _ _ (by simp)
    | constBool b =>
      simp only [leaveList] at h ⊢
      exact step_fst _ _ h
    | constInt i =>
      simp only [leaveList] at h ⊢
      exact step_fst _ _ h
    | nullQ =>
      simp only [leaveList] at h ⊢
      exact step_fst _ _ h
    | literalQ v =>
      simp only [leaveList] at h ⊢
      exact step_fst _ _ h
    | variableQ l =>
      simp only [leaveList] at h ⊢
      exact step_fst _ _ h
    | variableAssignment l v r => exact absurd rfl h
    | objectQ props =>
      cases props with
      | nil =>
        simp only [leaveList] at h ⊢
        exact step_fst _ _ h
      | cons n v rest => exact absurd rfl h
    | listQ items =>
      cases items with
      | nil =>
        simp only [leaveList] at h ⊢
        exact step_fst _ _ h
      | cons hd rest => exact absurd rfl h
    | conditional c e1 e2 => exact absurd rfl h
    | transformList l iv f ob mc inner => exact absurd rfl h
    | fieldQ obj name =>
      simp only [leaveList] at h ⊢
      show (leaveStep true (.fieldQ (moveAux obj false pending).1 name)
        (moveAux obj false pending).2).1 = joinErrorNode (pending ++ collectAll obj)
      rw [moveAux_nonOutput obj pending]
      exact step_fst _ _ h
    | followEdge src st sf tt =>
      simp only [leaveList] at h ⊢
      show (leaveStep true (.followEdge (moveAux src false pending).1 st sf tt)
        (moveAux src false pending).2).1 = joinErrorNode (pending ++ collectAll src)
      rw [moveAux_nonOutput src pending]
      exact step_fst _ _ h
    | createEntity t obj =>
      simp only [leaveList] at h ⊢
      show (leaveStep true (.createEntity t (moveAux obj false pending).1)
        (moveAux obj false pending).2).1 = joinErrorNode (pending ++ collectAll obj)
      rw [moveAux_nonOutput obj pending]
      exact step_fst _ _ h
    | withPreExecution r steps =>
      simp only [leaveList] at h ⊢
      show (leaveStep true
          (.withPreExecution (moveAux r false pending).1
            (moveSteps steps (moveAux r false pending).2).1)
          (moveSteps steps (moveAux r false pending).2).2).1
        = joinErrorNode (pending ++ collectAll r ++ collectSteps steps)
      rw [moveAux_nonOutput r pending]
      show (leaveStep true
          (.withPreExecution r (moveSteps steps (pending ++ collectAll r)).1)
          (moveSteps steps (pending ++ collectAll r)).2).1
        = joinErrorNode (pending ++ collectAll r ++ collectSteps steps)
      rw [moveSteps_collect steps (pending ++ collectAll r)]
      exact step_fst _ _ h
  intro n pending
  exact ⟨main n pending, fun h => main n [] h⟩

/-- A field read on an object whose two property values are distinct `RuntimeError`s:
both are collected within the field node's boundary. -/
def twoErrorTree : QNode :=
  .fieldQ (.objectQ (.cons "x" (.runtimeError "a") (.cons "y" (.runtimeError "b") .nil))) "f"

/-- C2, witness: the pass collapses the two errors of `twoErrorTree` into exactly one
`RuntimeError` with the comma-joined message, in depth-first order. -/
theorem moveErrors_collapse_witness :
    moveErrorsToOutputNodes twoErrorTree = .runtimeError "a, b" :=
  ((moveErrors_collapses_to_single_error twoErrorTree []).2 (by decide)).trans rfl

/-- The syntactic test with which the generator skips the filter stage:
`!(node.filterNode instanceof ConstBoolQueryNode) || node.filterNode.value != true`
is false exactly for a `ConstBoolQueryNode(true)` filter. -/
def isAlwaysTrueFilter : QNode → Bool
  | .constBool true => true
  | _ => false

/-- The syntactic test with which the generator skips the map stage:
`node.innerNode != node.itemVariable` (reference identity in the source; the
identity mapping is the item variable itself). -/
def isIdentityInner (itemVariable : String) : QNode → Bool
  | .variableQ l => l == itemVariable
  | _ => false

/-- Semantics of the generated `TransformList` pipeline
(`list.filter(...).slice().sort(cmp).slice(0, maxCount).map(...)`), with each stage
emitted only under the source's condition: the filter is omitted for a constant-true
filter node, the sort for an unordered `orderBy` (here: no compiled clauses), the
`slice` cap when `maxCount` is `undefined`, and the map when the inner node is the
item variable.  `p` and `f` are the runtime denotations of the compiled filter and
inner lambdas and `clauses` the compiled `(key, descending)` pairs. -/
def jsFilterStage (filterNode : QNode) (p : Value → Bool) (l : List Value) : List Value :=
  if isAlwaysTrueFilter filterNode then l else l.filter p

def jsSortStage (clauses : List SortClause) (l : List Value) : List Value :=
  if clauses.isEmpty then l else sortByCmp (multiCompare clauses) l

def jsMapStage (itemVariable : String) (innerNode : QNode) (f : Value → Value)
    (l : List Value) : List Value :=
  if isIdentityInner itemVariable innerNode then l else l.map f

def jsCap (maxCount : Option Nat) (l : List Value) : List Value :=
  match maxCount with
  | some c => l.take c
  | none => l

def jsTransformList (filterNode : QNode) (itemVariable : String) (innerNode : QNode)
    (clauses : List SortClause) (maxCount : Option Nat)
    (p : Value → Bool) (f : Value → Value) (l : List Value) : List Value :=
  jsMapStage itemVariable innerNode f
    (jsCap maxCount
      (jsSortStage clauses
        (jsFilterStage filterNode p l)))

/-- The specified semantics: always filter, then stable-sort by the clause list, then
truncate to the cap, then map — in this fixed order. -/
def specTransformList (clauses : List SortClause) (maxCount : Option Nat)
    (p : Value → Bool) (f : Value → Value) (l : List Value) : List Value :=
  (jsCap maxCount (sortByCmp (multiCompare clauses) (l.filter p))).map f

theorem sortByCmp_no_clauses (l : List Value) : sortByCmp (multiCompare []) l = l := by
  induction l with
  | nil => rfl
  | cons a l ih =>
    show insertCmp (multiCompare []) a (sortByCmp (multiCompare []) l) = a :: l
    rw [ih]
    cases l with
    | nil => rfl
    | cons b bs => simp [insertCmp, multiCompare]

theorem filter_of_always_true (p : Value → Bool) (hp : ∀ v, p v = true) (l : List Value) :
    l.filter p = l := by
  induction l with
  | nil => rfl
  | cons a l ih => simp [List.filter_cons, hp a, ih]

theorem map_of_identity (f : Value → Value) (hf : ∀ v, f v = v) (l : List Value) :
    l.map f = l := by
  induction l with
  | nil => rfl
  | cons a l ih => simp [hf a, ih]

/-- C3: the compiled `TransformList` pipeline equals filter → stable sort → cap → map
whenever the skipped stages really are the defaults (a constant-true filter denotes
the always-true predicate; the item-variable inner node denotes the identity); the
sort is stable on ties (elements tied under the multi-clause comparator keep their
relative order); and earlier clauses take priority (a clause that distinguishes
decides, regardless of later clauses). -/
theorem transformList_stages_correct :
    (∀ (filterNode : QNode) (itemVariable : String) (innerNode : QNode)
      (clauses : List SortClause) (maxCount : Option Nat)
      (p : Value → Bool) (f : Value → Value) (l : List Value),
      (isAlwaysTrueFilter filterNode = true → ∀ v, p v = true) →
      (isIdentityInner itemVariable innerNode = true → ∀ v, f v = v) →
      jsTransformList filterNode itemVariable innerNode clauses maxCount p f l =
        specTransformList clauses maxCount p f l)
    ∧ (∀ (clauses : List SortClause) (x : Value) (l : List Value),
      (sortByCmp (multiCompare clauses) l).filter (fun y => ordEqB (multiCompare clauses y x)) =
        l.filter (fun y => ordEqB (multiCompare clauses y x)))
    ∧ (∀ (c : SortClause) (rest : List SortClause) (a b : Value),
      clauseCompare c a b ≠ .eq → multiCompare (c :: rest) a b = clauseCompare c a b) := by
  refine ⟨?_, ?_, ?_⟩
  · intro filterNode itemVariable innerNode clauses maxCount p f l hp hf
    unfold jsTransformList specTransformList
    have hfil : jsFilterStage filterNode p l = l.filter p := by
      unfold jsFilterStage
      by_cases hc : isAlwaysTrueFilter filterNode
      · rw [if_pos hc, filter_of_always_true p (hp hc)]
      · rw [if_neg hc]
    rw [hfil]
    have hsort : jsSortStage clauses (l.filter p) =
        sortByCmp (multiCompare clauses) (l.filter p) := by
      unfold jsSortStage
      cases clauses with
      | nil => simp [sortByCmp_no_clauses]
      | cons c cs => rfl
    rw [hsort]
    unfold jsMapStage
    by_cases hm : isIdentityInner itemVariable innerNode
    · rw [if_pos hm, map_of_identity f (hf hm)]
    · rw [if_neg hm]
  · intro clauses x l
    exact sortByCmp_stable_filter (multiCompare clauses)
      (fun v => clauses.map (fun c => encV (c.1 v)))
      (fun a b => multiCompare_eq_iff clauses a b) x l
  · intro c rest a b hne
    unfold multiCompare
    rcases hc : clauseCompare c a b with _ | _ | _
    · rfl
    · exact absurd hc hne
    · rfl

/-- C3, witness: a `TransformList` with all defaults and a cap of 2 on a concrete
three-element list agrees with the specified pipeline, which evaluates to the first
two items. -/
theorem transformList_stages_witness :
    jsTransformList (.constBool true) "item" (.variableQ "item") [] (some 2)
        (fun _ => true) id [Value.intV 1, Value.intV 2, Value.intV 3] =
      specTransformList [] (some 2) (fun _ => true) id
        [Value.intV 1, Value.intV 2, Value.intV 3]
    ∧ specTransformList [] (some 2) (fun _ => true) id
        [Value.intV 1, Value.intV 2, Value.intV 3] = [Value.intV 1, Value.intV 2] :=
  ⟨transformList_stages_correct.1 (.constBool true) "item" (.variableQ "item") [] (some 2)
      (fun _ => true) id [Value.intV 1, Value.intV 2, Value.intV 3]
      (fun _ _ => rfl) (fun _ _ => rfl),
    rfl⟩

/-- Permission verdicts of the permission-descriptor evaluator
(`PermissionResult` in `authorization/permission-descriptors`). -/
inductive PermissionResult where
  | GRANTED
  | DENIED
  | CONDITIONAL
deriving DecidableEq

/-- The privacy-safe message of the entity-level DENIED branch of
`transformFollowEdgeQueryNode`: a function of the schema names only (target type,
source type, source field) — no user data occurs in it. -/
def deniedFollowEdgeMessage (targetTypeName sourceTypeName sourceFieldName : String) : String :=
  "Not authorized to read " ++ targetTypeName ++ " objects by following "
    ++ sourceTypeName ++ "." ++ sourceFieldName

/-- Embedding of `transformFollowEdgeQueryNode` (follow-edge.ts).  The schema lookups
are supplied as parameters: `sourceTypeName`/`sourceFieldName`/`targetTypeName` stand
for `edgeType.getTypeOfSide`/`getFieldOfSide` on the node's sides, the two verdicts
for `canAccess(authContext, READ)` of the field-level and entity-level permission
descriptors, `hasAccessGroupField` for `targetType.getFields()['accessGroup']`, and
`getAccessCondition` for the entity descriptor's access-condition builder.  Thrown
errors are returned as `.error`. -/
def transformFollowEdgeQueryNode (sourceTypeName : String) (sourceFieldName : Option String)
    (targetTypeName : String) (fieldVerdict entityVerdict : PermissionResult)
    (hasAccessGroupField : Bool) (getAccessCondition : QNode → QNode)
    (node : QNode) : Except String QNode :=
  match sourceFieldName with
  | none =>
    .error ("Encountered FollowEdgeQueryNode which traverses via non-existing inverse field (on "
      ++ sourceTypeName ++ ")")
  | some sf =>
    match fieldVerdict with
    | .DENIED => .ok (.runtimeError ("Not authorized to read " ++ sourceTypeName ++ "." ++ sf))
    | .CONDITIONAL =>
      .error ("Permission profiles with accessGroup restrictions are currently not supported on fields, but used in "
        ++ sourceTypeName ++ "." ++ sf)
    | .GRANTED =>
      match entityVerdict with
      | .GRANTED => .ok node
      | .DENIED => .ok (.runtimeError (deniedFollowEdgeMessage targetTypeName sourceTypeName sf))
      | .CONDITIONAL =>
        if hasAccessGroupField then
          .ok (.transformList node "item"
            (getAccessCondition (.fieldQ (.variableQ "item") "accessGroup"))
            .nil none (.variableQ "item"))
        else
          .error ("Root entity " ++ targetTypeName
            ++ " has an accessGroup-based permission profile, but no accessGroup field")

/-- C4: with the field-level verdict GRANTED, the entity-level verdict maps as
follows.  GRANTED passes the node through unchanged; DENIED yields a `RuntimeError`
whose message is `deniedFollowEdgeMessage` — a function of the denied type and field
names only, so no user data can occur in it; CONDITIONAL (with an accessGroup field
present) re-wraps the original node in a `TransformList` whose filter is the
access-condition subtree applied to the item's `accessGroup` field, with the item
variable bound per item and all other parameters at their defaults. -/
theorem followEdge_verdict_mapping :
    ∀ (st sf tt : String) (hagf : Bool) (gac : QNode → QNode) (node : QNode),
      transformFollowEdgeQueryNode st (some sf) tt .GRANTED .GRANTED hagf gac node = .ok node
      ∧ transformFollowEdgeQueryNode st (some sf) tt .GRANTED .DENIED hagf gac node =
          .ok (.runtimeError (deniedFollowEdgeMessage tt st sf))
      ∧ transformFollowEdgeQueryNode st (some sf) tt .GRANTED .CONDITIONAL true gac node =
          .ok (.transformList node "item" (gac (.fieldQ (.variableQ "item") "accessGroup"))
            .nil none (.variableQ "item")) :=
  fun _ _ _ _ _ _ => ⟨rfl, rfl, rfl⟩

/-- The `AUTHORIZATION_ERROR_NAME` constant of `auth-basics` (its value is not under
`src/`; only its use sites are — the value is irrelevant to every property proved). -/
def AUTHORIZATION_ERROR_NAME : String := "AuthorizationError"

/-- JavaScript truthiness, as the `ErrorIfNotTruthyResultValidator` checks it on the
pre-execution step's result. -/
def jsTruthy : Value → Bool
  | .null => false
  | .boolV b => b
  | .intV n => n != 0
  | .strV s => s != ""
  | .listV _ => true
  | .objV _ => true

/-- Embedding of `transformCreateEntityQueryNode`.  The permission descriptor is
supplied as parameters: `access` is `canAccess(authContext, WRITE)`,
`getAccessCondition` builds the access-condition subtree from the node's
`objectNode`, and `explanation` is `getExplanationForCondition(...)`.  On
CONDITIONAL, the node is wrapped in a `WithPreExecution` whose single step carries
the condition as query, no result variable, and an `ErrorIfNotTruthyResultValidator`
with the given message. -/
def transformCreateEntityQueryNode (access : PermissionResult) (typeName : String)
    (objectNode : QNode) (getAccessCondition : QNode → QNode)
    (explanation : String) : QNode :=
  match access with
  | .GRANTED => .createEntity typeName objectNode
  | .DENIED =>
    .runtimeError (AUTHORIZATION_ERROR_NAME ++ ": Not authorized to create "
      ++ typeName ++ " objects")
  | .CONDITIONAL =>
    .withPreExecution (.createEntity typeName objectNode)
      (.cons (getAccessCondition objectNode) none
        (some ("Not authorized to " ++ explanation)) .nil)

/-- Modelled from the spec: execution of the pre-execution steps of a
`WithPreExecution` node (`ErrorIfNotTruthyResultValidator` and the storage adapter's
transaction loop are not under `src/`).  Per §4.2/§5 of the spec, the steps run
strictly in declaration order; a step whose validator finds a non-truthy result
aborts the remaining steps and the main operation without executing them (the state
is returned unchanged inside the error).  `evalQ` evaluates a step's (pure condition)
query, `runMain` runs the main result node with its state effect. -/
def runWithPreExecution {σ : Type} (evalQ : QNode → Value)
    (runMain : QNode → σ → σ × Value) (st : σ) (resultNode : QNode) :
    StepList → Except (String × σ) (σ × Value)
  | .nil => .ok (runMain resultNode st)
  | .cons q _ vm rest =>
    match vm with
    | some msg =>
      if jsTruthy (evalQ q) then runWithPreExecution evalQ runMain st resultNode rest
      else .error (msg, st)
    | none => runWithPreExecution evalQ runMain st resultNode rest

/-- Modelled from the spec: running a (possibly `WithPreExecution`-wrapped) tree —
the main node only runs after every pre-execution step passed its validator. -/
def executeQueryNode {σ : Type} (evalQ : QNode → Value)
    (runMain : QNode → σ → σ × Value) (st : σ) : QNode → Except (String × σ) (σ × Value)
  | .withPreExecution r steps => runWithPreExecution evalQ runMain st r steps
  | n => .ok (runMain n st)

/-- C5: on a CONDITIONAL verdict the create-entity transformer returns a
`WithPreExecution` whose result node is the original `CreateEntity` and whose step
list has exactly one step — its query the access-condition subtree, its validator the
not-truthy check; and whenever that condition evaluates to a non-truthy value,
executing the transformed tree aborts with the validator's message, the state
unchanged and the wrapped `CreateEntity` never run. -/
theorem createEntity_conditional_preExecution :
    ∀ (typeName : String) (objectNode : QNode) (gac : QNode → QNode) (explanation : String),
      transformCreateEntityQueryNode .CONDITIONAL typeName objectNode gac explanation =
        .withPreExecution (.createEntity typeName objectNode)
          (.cons (gac objectNode) none (some ("Not authorized to " ++ explanation)) .nil)
      ∧ (∀ (σ : Type) (evalQ : QNode → Value) (runMain : QNode → σ → σ × Value) (st : σ),
        jsTruthy (evalQ (gac objectNode)) = false →
        executeQueryNode evalQ runMain st
            (transformCreateEntityQueryNode .CONDITIONAL typeName objectNode gac explanation) =
          .error ("Not authorized to " ++ explanation, st)) := by
  intro typeName objectNode gac explanation
  refine ⟨rfl, ?_⟩
  intro σ evalQ runMain st hfalse
  show runWithPreExecution evalQ runMain st (.createEntity typeName objectNode)
    (.cons (gac objectNode) none (some ("Not authorized to " ++ explanation)) .nil) = _
  unfold runWithPreExecution
  rw [hfalse]
  rfl

/-- C5, witness: with a condition evaluating to `false`, the transformed create on a
concrete state aborts with the validator message and the untouched state. -/
theorem createEntity_conditional_witness :
    executeQueryNode (fun _ => Value.boolV false) (fun _ s => (s + 1, Value.null)) (0 : Nat)
        (transformCreateEntityQueryNode .CONDITIONAL "Delivery" .nullQ
          (fun _ => .constBool false) "set the accessGroup to a permitted value") =
      .error ("Not authorized to set the accessGroup to a permitted value", 0) :=
  (createEntity_conditional_preExecution "Delivery" .nullQ
      (fun _ => .constBool false) "set the accessGroup to a permitted value").2
    Nat (fun _ => Value.boolV false) (fun _ s => (s + 1, Value.null)) 0 rfl

/-- Binary operators of the IR (`BinaryOperator` in `query/definition`). -/
inductive BinaryOperator where
  | AND | OR | EQUAL | UNEQUAL
  | ADD | SUBTRACT | MULTIPLY | DIVIDE | MODULO
  | LESS_THAN | LESS_THAN_OR_EQUAL | GREATER_THAN | GREATER_THAN_OR_EQUAL
  | CONTAINS | IN | STARTS_WITH | ENDS_WITH
  | APPEND | PREPEND
deriving DecidableEq

/-- Embedding of `getJSOperator`: the operators that translate to a native JS
operator; everything else (all four relational comparisons included) returns
`none` and is handled by the dedicated lowering below. -/
def getJSOperator : BinaryOperator → Option String
  | .AND => some "&&"
  | .OR => some "||"
  | .EQUAL => some "==="
  | .UNEQUAL => some "!=="
  | .ADD => some "+"
  | .SUBTRACT => some "-"
  | .MULTIPLY => some "*"
  | .DIVIDE => some "/"
  | .MODULO => some "%"
  | _ => none

mutual

/-- JavaScript `String(...)` coercion of a runtime value. -/
def toJSString : Value → String
  | .null => "null"
  | .boolV b => if b then "true" else "false"
  | .intV n => toString n
  | .strV s => s
  | .listV xs => toJSStringItems xs
  | .objV _ => "[object Object]"

/-- JavaScript array-to-string: elements joined by commas, `null` elements
rendering as the empty string. -/
def toJSStringItems : List Value → String
  | [] => ""
  | [x] => toJSStringItem x
  | x :: xs => toJSStringItem x ++ "," ++ toJSStringItems xs

def toJSStringItem : Value → String
  | .null => ""
  | v => toJSString v

end

/-- The operand coercion `Array.isArray(x) ? x : String(x)` that the generator wraps
around both operands of CONTAINS/IN: a list stays a list, anything else becomes its
string form. -/
def listOrString (v : Value) : Value :=
  match v with
  | .listV _ => v
  | _ => .strV (toJSString v)

/-- Structural model of JavaScript strict equality (`===`) as used by
`Array.prototype.includes` on our value domain. -/
def jsStrictEqB (a b : Value) : Bool :=
  encV a == encV b

/-- Substring test, modelling `String.prototype.includes`. -/
def jsStrIncludes (s sub : String) : Bool :=
  (List.range (s.length + 1)).any (fun i => (s.drop i).startsWith sub)

/-- Semantics of `container.includes(item)` after the `listOrString` coercions: list
membership on an array container, substring test (with the argument coerced to a
string, as JS does) on a string container. -/
def jsIncludes (container item : Value) : Bool :=
  match container with
  | .listV xs => xs.any (fun x => jsStrictEqB x item)
  | .strV s => jsStrIncludes s (toJSString item)
  | _ => false

/-- Truth of `support.compare(lhs, rhs) REL 0` for the relational symbol emitted by
the generator. -/
def relSymbolHolds (rel : String) (o : Ordering) : Bool :=
  if rel = "<" then o == .lt
  else if rel = "<=" then !(o == .gt)
  else if rel = ">" then o == .gt
  else if rel = ">=" then !(o == .lt)
  else false

/-- Shape of the code the `BinaryOperation` processor emits: a native JS operator, a
`support.compare(lhs, rhs) REL 0` comparator call, a membership test on
`listOrString`-coerced operands (first component the container), a
`String(lhs).startsWith(rhs)` / `.endsWith(rhs)` call, or a string concatenation. -/
inductive BinaryLowering (α : Type) where
  | nativeOp (opSymbol : String) (lhs rhs : α)
  | comparatorCall (relSymbol : String) (lhs rhs : α)
  | memberIncludes (container item : α)
  | startsWithCall (lhs rhs : α)
  | endsWithCall (lhs rhs : α)
  | appendConcat (lhs rhs : α)
  | prependConcat (lhs rhs : α)

/-- Embedding of the `BinaryOperation` processor's dispatch: a native operator from
`getJSOperator` short-circuits; otherwise the four relational comparisons route
through the comparator call, CONTAINS/IN build the membership test (container = lhs
for CONTAINS, rhs for IN), STARTS_WITH/ENDS_WITH the string tests, APPEND/PREPEND the
concatenations; anything else throws `Unsupported binary operator`. -/
def lowerBinaryOperation {α : Type} (op : BinaryOperator) (lhs rhs : α) :
    Except String (BinaryLowering α) :=
  match getJSOperator op with
  | some s => .ok (.nativeOp s lhs rhs)
  | none =>
    match op with
    | .LESS_THAN => .ok (.comparatorCall "<" lhs rhs)
    | .LESS_THAN_OR_EQUAL => .ok (.comparatorCall "<=" lhs rhs)
    | .GREATER_THAN => .ok (.comparatorCall ">" lhs rhs)
    | .GREATER_THAN_OR_EQUAL => .ok (.comparatorCall ">=" lhs rhs)
    | .CONTAINS => .ok (.memberIncludes lhs rhs)
    | .IN => .ok (.memberIncludes rhs lhs)
    | .STARTS_WITH => .ok (.startsWithCall lhs rhs)
    | .ENDS_WITH => .ok (.endsWithCall lhs rhs)
    | .APPEND => .ok (.appendConcat lhs rhs)
    | .PREPEND => .ok (.prependConcat lhs rhs)
    | _ => .error "Unsupported binary operator"

/-- Runtime semantics of an emitted binary fragment on concrete operand values; a
native operator's semantics is not modelled (`none`). -/
def evalBinaryLowering : BinaryLowering Value → Option Value
  | .comparatorCall rel a b => some (.boolV (relSymbolHolds rel (totalCompare a b)))
  | .memberIncludes c i => some (.boolV (jsIncludes (listOrString c) (listOrString i)))
  | .startsWithCall a b => some (.boolV ((toJSString a).startsWith (toJSString b)))
  | .endsWithCall a b => some (.boolV ((toJSString a).endsWith (toJSString b)))
  | .appendConcat a b => some (.strV (toJSString a ++ toJSString b))
  | .prependConcat a b => some (.strV (toJSString b ++ toJSString a))
  | .nativeOp _ _ _ => none

/-- Lower a binary operation on concrete operands and evaluate the emitted fragment. -/
def evalBinaryOperation (op : BinaryOperator) (a b : Value) :
    Except String (Option Value) :=
  (lowerBinaryOperation op a b).map evalBinaryLowering

/-- C6: the four relational comparisons lower to the total-order comparator call —
never to a native relational operator (`getJSOperator` has no entry for them) — and
evaluate by comparing with `totalCompare`; CONTAINS tests membership with the
lhs-container and IN with the rhs-container, each operand coerced by `listOrString`
(a list stays a list, otherwise the string form); STARTS_WITH and ENDS_WITH evaluate
on string-coerced operands. -/
theorem binaryOperation_lowering :
    ∀ (a b : Value),
      lowerBinaryOperation .LESS_THAN a b = .ok (.comparatorCall "<" a b)
      ∧ lowerBinaryOperation .LESS_THAN_OR_EQUAL a b = .ok (.comparatorCall "<=" a b)
      ∧ lowerBinaryOperation .GREATER_THAN a b = .ok (.comparatorCall ">" a b)
      ∧ lowerBinaryOperation .GREATER_THAN_OR_EQUAL a b = .ok (.comparatorCall ">=" a b)
      ∧ getJSOperator .LESS_THAN = none ∧ getJSOperator .LESS_THAN_OR_EQUAL = none
      ∧ getJSOperator .GREATER_THAN = none ∧ getJSOperator .GREATER_THAN_OR_EQUAL = none
      ∧ evalBinaryOperation .LESS_THAN a b =
          .ok (some (.boolV (relSymbolHolds "<" (totalCompare a b))))
      ∧ evalBinaryOperation .CONTAINS a b =
          .ok (some (.boolV (jsIncludes (listOrString a) (listOrString b))))
      ∧ evalBinaryOperation .IN a b =
          .ok (some (.boolV (jsIncludes (listOrString b) (listOrString a))))
      ∧ evalBinaryOperation .STARTS_WITH a b =
          .ok (some (.boolV ((toJSString a).startsWith (toJSString b))))
      ∧ evalBinaryOperation .ENDS_WITH a b =
          .ok (some (.boolV ((toJSString a).endsWith (toJSString b)))) :=
  fun _ _ =>
    ⟨rfl, rfl, rfl, rfl, rfl, rfl, rfl, rfl, rfl, rfl, rfl, rfl, rfl⟩

/-- JavaScript `typeof` on our value domain (`typeof null` is `"object"`, arrays are
`"object"`). -/
def typeofValue : Value → String
  | .null => "object"
  | .boolV _ => "boolean"
  | .intV _ => "number"
  | .strV _ => "string"
  | .listV _ => "object"
  | .objV _ => "object"

def isNullV : Value → Bool
  | .null => true
  | _ => false

/-- First property with the given name, as JS property lookup on our object model. -/
def lookupProp (props : List (String × Value)) (name : String) : Option Value :=
  (props.find? (fun p => p.1 == name)).map (fun p => p.2)

/-- Raw JS property access `object[name]`: throws on `null`, yields the property (or
`undefined`, modelled as `null`) on an object, `undefined`→`null` on anything else. -/
def rawFieldAccess (v : Value) (name : String) : Except String Value :=
  match v with
  | .null => .error "TypeError: Cannot read properties of null"
  | .objV props => .ok ((lookupProp props name).getD .null)
  | _ => .ok .null

/-- Embedding of the emitted `Field` access
`(object => ((typeof object == 'object' && object != null) ? object[name] : null))(value)`:
the guard routes every non-object (and `null`, which also has `typeof` `"object"`)
to `null` without touching the raw access. -/
def fieldAccess (v : Value) (name : String) : Except String Value :=
  if typeofValue v == "object" && !isNullV v then rawFieldAccess v name else .ok .null

/-- C7: field access on `null` or any scalar (boolean, number, string) evaluates to
`null`; on an object it reads the named property (`null` when absent); and it never
raises — the result is `.ok` for every operand. -/
theorem field_access_permissive :
    ∀ (name : String),
      fieldAccess .null name = .ok .null
      ∧ (∀ b, fieldAccess (.boolV b) name = .ok .null)
      ∧ (∀ i, fieldAccess (.intV i) name = .ok .null)
      ∧ (∀ s, fieldAccess (.strV s) name = .ok .null)
      ∧ (∀ props, fieldAccess (.objV props) name = .ok ((lookupProp props name).getD .null))
      ∧ (∀ v, (fieldAccess v name).isOk = true) := by
  intro name
  refine ⟨rfl, fun b => rfl, fun i => rfl, fun s => rfl, fun props => rfl, fun v => ?_⟩
  cases v <;> rfl

/-- The SCALAR check fragment that `TypeCheck` in the js-generator actually emits
(with the value operand written `value`): the quote after `number` is missing in the
source, so `'number || typeof value == '` lexes as a single string literal. -/
def typeCheckScalarFragment : String :=
  "(typeof value == 'boolean' || typeof value == 'number || typeof value == 'string')"

/-- The evidently intended SCALAR check fragment, with the closing quote present. -/
def typeCheckScalarFragmentIntended : String :=
  "(typeof value == 'boolean' || typeof value == 'number' || typeof value == 'string')"

/-- Number of single-quote characters of a string: a JS expression built only from
simple single-quoted literals (no escapes, backticks or double quotes) needs an even
count to tokenize. -/
def singleQuoteCount (s : String) : Nat :=
  s.data.countP (fun c => c == Char.ofNat 39)

/-- The NULL check `value == null` emitted by `TypeCheck`. -/
def typeCheckNull (v : Value) : Bool :=
  isNullV v

/-- The LIST check `Array.isArray(value)` emitted by `TypeCheck`. -/
def typeCheckList : Value → Bool
  | .listV _ => true
  | _ => false

/-- The OBJECT check `typeof value == 'object' && value != null && !Array.isArray(value)`
emitted by `TypeCheck`. -/
def typeCheckObject (v : Value) : Bool :=
  typeofValue v == "object" && !isNullV v && !typeCheckList v

/-- The SCALAR check as intended:
`typeof value == 'boolean' || typeof value == 'number' || typeof value == 'string'`. -/
def typeCheckScalarIntended (v : Value) : Bool :=
  typeofValue v == "boolean" || typeofValue v == "number" || typeofValue v == "string"

/-- C9: the SCALAR fragment the generator emits has five single quotes — an odd
count, so its third string literal is unterminated and the emitted check cannot
lex as the intended boolean — while the intended fragment has six; under the
intended reading the four kind checks classify every runtime value into exactly
one kind. -/
theorem typeCheck_scalar_fragment_bug :
    singleQuoteCount typeCheckScalarFragment = 5
    ∧ singleQuoteCount typeCheckScalarFragmentIntended = 6
    ∧ ∀ v, (typeCheckNull v).toNat + (typeCheckList v).toNat
        + (typeCheckObject v).toNat + (typeCheckScalarIntended v).toNat = 1 := by
  refine ⟨by decide, by decide, fun v => ?_⟩
  cases v <;> rfl

/-- One key-value assignment of JavaScript `Object.assign`: an existing key keeps its
position and gets the new value (JS object keys are unique, so replacing the first
occurrence suffices); a new key is appended. -/
def setProp : List (String × Value) → String → Value → List (String × Value)
  | [], k, v => [(k, v)]
  | p :: ps, k, v => if p.1 == k then (p.1, v) :: ps else p :: setProp ps k v

/-- JavaScript `Object.assign(target, source)`: the source's own properties are
assigned onto the target left to right — a shallow, non-recursive merge. -/
def objectAssign (target source : List (String × Value)) : List (String × Value) :=
  source.foldl (fun t kv => setProp t kv.1 kv.2) target

/-- Embedding of the emitted `UpdateEntities` operation
`matchedList.map(entity => { Object.assign(entity, updates(entity)); return entity.id; })`:
`patchOf` is the evaluation of the update `Object` node with the current-entity
variable bound to the (pre-update) stored record.  The first component is the value
the operation evaluates to (the post-update `id` of each entity, in the matched
list's order); the second is the list of updated stored records. -/
def updateEntities (matched : List (List (String × Value)))
    (patchOf : List (String × Value) → List (String × Value)) :
    List Value × List (List (String × Value)) :=
  (matched.map (fun e => (lookupProp (objectAssign e (patchOf e)) "id").getD .null),
    matched.map (fun e => objectAssign e (patchOf e)))

theorem lookupProp_setProp (t : List (String × Value)) (k0 : String) (v : Value)
    (k : String) :
    lookupProp (setProp t k0 v) k = if k == k0 then some v else lookupProp t k := by
  induction t with
  | nil =>
    by_cases hk : k = k0
    · subst hk
      simp [setProp, lookupProp, List.find?_cons]
    · have h1 : (k0 == k) = false := by
        simp only [beq_eq_false_iff_ne]
        exact fun he => hk he.symm
      have h2 : (k == k0) = false := by simp [beq_eq_false_iff_ne, hk]
      simp [setProp, lookupProp, List.find?_cons, h1, h2]
  | cons q qs ih =>
    by_cases hq : q.1 = k0
    · have hqb : (q.1 == k0) = true := by simp [hq]
      by_cases hk : k = k0
      · subst hk
        have hq1 : (q.1 == k) = true := by simp [hq]
        simp [setProp, lookupProp, List.find?_cons, hqb, hq1]
      · have hq1 : (q.1 == k) = false := by
          simp only [beq_eq_false_iff_ne]
          rw [hq]
          exact fun he => hk he.symm
        have h2 : (k == k0) = false := by simp [beq_eq_false_iff_ne, hk]
        simp [setProp, lookupProp, List.find?_cons, hqb, hq1, h2]
    · have hqb : (q.1 == k0) = false := by simp [beq_eq_false_iff_ne, hq]
      by_cases hqk : q.1 = k
      · have hkk : (k == k0) = false := by
          simp only [beq_eq_false_iff_ne]
          intro he
          exact hq (hqk.trans he)
        have hq1 : (q.1 == k) = true := by simp [hqk]
        simp [setProp, lookupProp, List.find?_cons, hqb, hq1, hkk]
      · have hq1 : (q.1 == k) = false := by simp [beq_eq_false_iff_ne, hqk]
        have := ih
        simp only [setProp, hqb] at *
        simp [lookupProp, List.find?_cons, hq1, setProp, hqb] at this ⊢
        exact this

theorem lookupProp_objectAssign (patch : List (String × Value)) :
    ∀ (e : List (String × Value)) (k : String),
      lookupProp (objectAssign e patch) k =
        match patch.reverse.find? (fun p => p.1 == k) with
        | some kv => some kv.2
        | none => lookupProp e k := by
  induction patch with
  | nil => intro e k; rfl
  | cons kv rest ih =>
    intro e k
    show lookupProp (objectAssign (setProp e kv.1 kv.2) rest) k = _
    rw [ih (setProp e kv.1 kv.2) k]
    rw [show (kv :: rest).reverse = rest.reverse ++ [kv] from by simp]
    rw [List.find?_append]
    cases hfind : rest.reverse.find? (fun p => p.1 == k) with
    | some p => simp
    | none =>
      simp only [Option.none_orElse]
      rw [lookupProp_setProp]
      by_cases hk : k = kv.1
      · have h1 : (k == kv.1) = true := by simp [hk]
        have h2 : (kv.1 == k) = true := by simp [hk.symm]
        simp [h1, h2, List.find?_cons]
      · have h1 : (k == kv.1) = false := by simp [beq_eq_false_iff_ne, hk]
        have h2 : (kv.1 == k) = false := by
          simp only [beq_eq_false_iff_ne]
          exact fun he => hk he.symm
        simp [h1, h2, List.find?_cons]

/-- C10: the compiled `UpdateEntities` operation evaluates to the post-update `id`
values — one per matched entity, in the matched list's order, not the entity objects
themselves — while each matched stored record becomes the shallow, non-recursive
merge of the patch onto the original record: a key the patch does not mention keeps
its original value, and a mentioned key holds the patch's (last) value wholesale. -/
theorem updateEntities_ids_and_merge :
    ∀ (matched : List (List (String × Value)))
      (patchOf : List (String × Value) → List (String × Value)),
      (updateEntities matched patchOf).1 =
        matched.map (fun e => (lookupProp (objectAssign e (patchOf e)) "id").getD .null)
      ∧ (updateEntities matched patchOf).2 =
        matched.map (fun e => objectAssign e (patchOf e))
      ∧ (updateEntities matched patchOf).1.length = matched.length
      ∧ (∀ (e patch : List (String × Value)) (k : String),
        lookupProp (objectAssign e patch) k =
          match patch.reverse.find? (fun p => p.1 == k) with
          | some kv => some kv.2
          | none => lookupProp e k) := by
  intro matched patchOf
  exact ⟨rfl, rfl, by simp [updateEntities], fun e patch k => lookupProp_objectAssign patch e k⟩

/-- Kinds of target-level variables of the js-generator: ordinary `JSVariable`s
introduced by binders, and `JSQueryResultVariable`s holding pre-execution results. -/
inductive JSVarKind where
  | ordinary
  | queryResult
deriving DecidableEq

/-- The scoping context of the js-generator (`QueryContext`), restricted to its
variable map; variables are identified by label (the compiled pre-execution query
list it also carries does not affect scoping). -/
structure QueryContext where
  variableMap : List (String × JSVarKind)

def lookupVar (ctx : QueryContext) (l : String) : Option JSVarKind :=
  (ctx.variableMap.find? (fun p => p.1 == l)).map (fun p => p.2)

/-- Embedding of `QueryContext.newPreExecContext`: a fresh context keeping exactly
the query-result variables of this one. -/
def QueryContext.newPreExecContext (ctx : QueryContext) : QueryContext :=
  ⟨ctx.variableMap.filter (fun p => p.2 == JSVarKind.queryResult)⟩

/-- Embedding of `QueryContext.introduceVariable` (via
`newNestedContextWithNewVariable`): binding an already-present variable is the fatal
`introduced twice` error; otherwise the binding is added as an ordinary variable. -/
def QueryContext.introduceVariable (ctx : QueryContext) (l : String) :
    Except String QueryContext :=
  if ctx.variableMap.any (fun p => p.1 == l) then
    .error ("Variable " ++ l ++ " is introduced twice")
  else
    .ok ⟨ctx.variableMap ++ [(l, .ordinary)]⟩

/-- The result-variable binding of `addPreExecuteQuery` (again via
`newNestedContextWithNewVariable`, but with a `JSQueryResultVariable`). -/
def QueryContext.introduceQueryResultVariable (ctx : QueryContext) (l : String) :
    Except String QueryContext :=
  if ctx.variableMap.any (fun p => p.1 == l) then
    .error ("Variable " ++ l ++ " is introduced twice")
  else
    .ok ⟨ctx.variableMap ++ [(l, .queryResult)]⟩

/-- Embedding of `QueryContext.getVariable`: looking up an unbound variable is the
fatal `used but not introduced` error. -/
def QueryContext.getVariable (ctx : QueryContext) (l : String) : Except String JSVarKind :=
  match lookupVar ctx l with
  | some k => .ok k
  | none => .error ("Variable " ++ l ++ " is used but not introduced")

mutual

/-- The variable-scoping projection of the js-generator's `processNode`: walks a node
exactly as the processors do, performing every `introduceVariable`/`getVariable`
call (and hence raising exactly the scoping errors compilation would raise).
`TransformList` introduces its item variable and compiles the ordering clauses,
filter and inner node in the item context but the list node in the outer context
(filter and inner lambdas are only built when the respective stage is emitted);
`VariableAssignment` compiles both subtrees in the extended context;
`WithPreExecution` threads its steps through `scopeSteps` and compiles the result
node in the resulting context. -/
def scopeCheck : QNode → QueryContext → Except String Unit
  | .variableQ l, ctx => (ctx.getVariable l).map (fun _ => ())
  | .variableAssignment l v r, ctx => do
    let ctx' ← ctx.introduceVariable l
    scopeCheck v ctx'
    scopeCheck r ctx'
  | .objectQ props, ctx => scopeProps props ctx
  | .listQ items, ctx => scopeItems items ctx
  | .conditional c e1 e2, ctx => do
    scopeCheck c ctx
    scopeCheck e1 ctx
    scopeCheck e2 ctx
  | .transformList l iv f ob mc inner, ctx => do
    let itemCtx ← ctx.introduceVariable iv
    scopeClauses ob itemCtx
    scopeCheck l ctx
    if isAlwaysTrueFilter f then pure () else scopeCheck f itemCtx
    let _ := mc
    if isIdentityInner iv inner then pure () else scopeCheck inner itemCtx
  | .fieldQ obj _, ctx => scopeCheck obj ctx
  | .followEdge src _ _ _, ctx => scopeCheck src ctx
  | .createEntity _ obj, ctx => scopeCheck obj ctx
  | .withPreExecution r steps, ctx => do
    let ctx' ← scopeSteps steps ctx
    scopeCheck r ctx'
  | _, _ => .ok ()

def scopeProps : PropList → QueryContext → Except String Unit
  | .nil, _ => .ok ()
  | .cons _ v rest, ctx => do
    scopeCheck v ctx
    scopeProps rest ctx

def scopeItems : NodeList → QueryContext → Except String Unit
  | .nil, _ => .ok ()
  | .cons h rest, ctx => do
    scopeCheck h ctx
    scopeItems rest ctx

def scopeClauses : OrderClauses → QueryContext → Except String Unit
  | .nil, _ => .ok ()
  | .cons v _ rest, ctx => do
    scopeCheck v ctx
    scopeClauses rest ctx

/-- The step loop of the `WithPreExecution` processor: each step is handled by
`addPreExecuteQuery`, which first creates the nested context binding the step's
result variable (on the context accumulated so far) and then compiles the step's
query in `newPreExecContext` of the *pre-binding* context — so a step sees only the
result bindings of previously declared steps, never its own and never any ordinary
variable. -/
def scopeSteps : StepList → QueryContext → Except String QueryContext
  | .nil, ctx => .ok ctx
  | .cons q rv _ rest, ctx => do
    let ctx' ← match rv with
      | some rl => ctx.introduceQueryResultVariable rl
      | none => pure ctx
    scopeCheck q ctx.newPreExecContext
    scopeSteps rest ctx'

end

theorem find?_spec {α : Type} (q : α → Bool) :
    ∀ (l : List α) (a : α), l.find? q = some a → q a = true ∧ a ∈ l := by
  intro l
  induction l with
  | nil => intro a h; cases h
  | cons b bs ih =>
    intro a h
    rw [List.find?_cons] at h
    cases hb : q b with
    | true =>
      rw [hb] at h
      cases h
      exact ⟨hb, List.mem_cons_self _ _⟩
    | false =>
      rw [hb] at h
      obtain ⟨hq, hm⟩ := ih a h
      exact ⟨hq, List.mem_cons_of_mem _ hm⟩

theorem lookupVar_newPreExecContext_none (ctx : QueryContext) (l : String)
    (honly : ∀ k, (l, k) ∈ ctx.variableMap → k = JSVarKind.ordinary) :
    lookupVar ctx.newPreExecContext l = none := by
  unfold lookupVar QueryContext.newPreExecContext
  cases hf : (ctx.variableMap.filter (fun p => p.2 == JSVarKind.queryResult)).find?
      (fun p => p.1 == l) with
  | none => rfl
  | some p =>
    obtain ⟨hpred, hmem⟩ := find?_spec (fun p => p.1 == l) _ p hf
    obtain ⟨hmem', hq⟩ := List.mem_filter.mp hmem
    have hp1 : p.1 = l := by simpa using hpred
    have hord : p.2 = JSVarKind.ordinary := by
      apply honly
      rw [← hp1]
      exact hmem'
    rw [hord] at hq
    cases hq

/-- C8: pre-execution isolation.  (1) `newPreExecContext` keeps exactly the
query-result bindings of a context; (2) ordinary binders add only `ordinary`-kind
bindings, and `addPreExecuteQuery`'s result binding is the only source of
`queryResult`-kind ones; (3) a variable bound only as an ordinary variable in the
enclosing context is absent from the pre-execution scope; and (4) compiling a
`WithPreExecution` whose first pre-execution query references such a variable fails
with the fatal `used but not introduced` error, for every context. -/
theorem preExec_scope_isolation :
    (∀ ctx : QueryContext, ctx.newPreExecContext.variableMap =
      ctx.variableMap.filter (fun p => p.2 == JSVarKind.queryResult))
    ∧ (∀ (ctx : QueryContext) (l : String) (ctx' : QueryContext),
      ctx.introduceVariable l = .ok ctx' →
      ctx'.variableMap = ctx.variableMap ++ [(l, JSVarKind.ordinary)])
    ∧ (∀ (ctx : QueryContext) (l : String) (ctx' : QueryContext),
      ctx.introduceQueryResultVariable l = .ok ctx' →
      ctx'.variableMap = ctx.variableMap ++ [(l, JSVarKind.queryResult)])
    ∧ (∀ (ctx : QueryContext) (l : String),
      (∀ k, (l, k) ∈ ctx.variableMap → k = JSVarKind.ordinary) →
      lookupVar ctx.newPreExecContext l = none)
    ∧ (∀ (ctx : QueryContext) (l : String) (vm : Option String) (rest : StepList)
        (resultNode : QNode),
      lookupVar ctx l = some JSVarKind.ordinary →
      (∀ k, (l, k) ∈ ctx.variableMap → k = JSVarKind.ordinary) →
      scopeCheck (.withPreExecution resultNode (.cons (.variableQ l) none vm rest)) ctx =
        .error ("Variable " ++ l ++ " is used but not introduced")) := by
  refine ⟨fun ctx => rfl, ?_, ?_, lookupVar_newPreExecContext_none, ?_⟩
  · intro ctx l ctx' h
    unfold QueryContext.introduceVariable at h
    by_cases hc : ctx.variableMap.any (fun p => p.1 == l)
    · rw [if_pos hc] at h
      cases h
    · rw [if_neg hc] at h
      cases h
      rfl
  · intro ctx l ctx' h
    unfold QueryContext.introduceQueryResultVariable at h
    by_cases hc : ctx.variableMap.any (fun p => p.1 == l)
    · rw [if_pos hc] at h
      cases h
    · rw [if_neg hc] at h
      cases h
      rfl
  · intro ctx l vm rest resultNode _ honly
    have hnone := lookupVar_newPreExecContext_none ctx l honly
    show (do
      let ctx' ← scopeSteps (.cons (.variableQ l) none vm rest) ctx
      scopeCheck resultNode ctx') = _
    show (do
      let ctx' ← (do
        let c ← (pure ctx : Except String QueryContext)
        scopeCheck (.variableQ l) ctx.newPreExecContext
        scopeSteps rest c)
      scopeCheck resultNode ctx') = _
    simp only [scopeCheck, QueryContext.getVariable, hnone]
    rfl

/-- C8, witness: in a context binding the ordinary variable `x`, compiling a
`WithPreExecution` whose single pre-execution query is the reference to `x` fails
with the fatal scoping error. -/
theorem preExec_scope_isolation_witness :
    scopeCheck (.withPreExecution .nullQ (.cons (.variableQ "x") none none .nil))
        ⟨[("x", JSVarKind.ordinary)]⟩ =
      .error ("Variable " ++ "x" ++ " is used but not introduced") :=
  preExec_scope_isolation.2.2.2.2 ⟨[("x", JSVarKind.ordinary)]⟩ "x" none .nil .nullQ rfl
    (fun _ hk => congrArg Prod.snd (List.mem_singleton.mp hk))
